import Mathlib

set_option autoImplicit false

/-!
Verification of the trollup sequencer core (src/sequencer/src/main.rs).

Modelling conventions:
* `ethers::types::Address` (H160) and `ethers::types::U256` are modelled as
  `Nat`; the representation invariants (`< 2 ^ 160`, `< 2 ^ 256`) appear as
  hypotheses where they matter.
* `HashMap<Address, U256>` is modelled as an association list
  `List (Nat × Nat)` whose well-formedness (`WF`) is key-uniqueness, which a
  `HashMap` guarantees.
* Arithmetic on `U256` (the `uint` crate) panics on overflow and underflow;
  operations that can panic in the source are modelled with `Except`/`Option`,
  `.error`/`none` standing for the panic.
* `keccak256` and the secp256k1 signing primitives live in external crates
  (`ethers`); they are taken as function parameters, with the recoverable
  signature contract (`ecRecover (ecSign k m) m = addrOf k`) as an explicit
  hypothesis where a theorem needs it.
-/

namespace TrollupSeq

/-- The `Tx` struct of the source: `{from, to, nonce, value}`. The Rust fields
`from` and `to` are Lean keywords, so they are rendered `fromAddr`/`toAddr`. -/
structure Tx where
  fromAddr : Nat
  toAddr : Nat
  nonce : Nat
  value : Nat
deriving DecidableEq

/-- The `SignedTx` struct: a `Tx` plus its signature (the source stores the
signature as a string; the abstract signature object is modelled as `Nat`). -/
structure SignedTx where
  tx : Tx
  signature : Nat
deriving DecidableEq

/-- The sequencer state `HashMap<Address, U256>`, as an association list. -/
abbrev Ledger := List (Nat × Nat)

/-- `state.get(&a)`: the first binding of key `a`, if any. -/
def lookup : Ledger → Nat → Option Nat
  | [], _ => none
  | (k, v) :: s, a => if k = a then some v else lookup s a

/-- The key multiset of a ledger. -/
def keys (s : Ledger) : List Nat := s.map Prod.fst

/-- Well-formedness: a `HashMap` has unique keys. -/
def WF (s : Ledger) : Prop := (keys s).Nodup

instance decWF (s : Ledger) : Decidable (WF s) := List.nodupDecidable (keys s)

/-- Overwrite the balance bound to key `a` (models mutation through
`state.get_mut(&a)` / an occupied `entry`). -/
def setBal (s : Ledger) (a v : Nat) : Ledger :=
  s.map (fun p => if p.1 = a then (a, v) else p)

/-- Total of all balances stored in the ledger. -/
def sumBal (s : Ledger) : Nat := (s.map Prod.snd).sum

/-- Balance of `a`, taking 0 for an absent account. -/
def lookupOr0 (s : Ledger) (a : Nat) : Nat := (lookup s a).getD 0

/-- `validate_tx` from the source: `Ok(())` when the sender is present with
balance at least `value`, otherwise the `anyhow` error "Insufficient balance"
(an absent sender falls into the same `_` arm as an insufficient one). -/
def validate_tx (state : Ledger) (tx : SignedTx) : Except String Unit :=
  match lookup state tx.tx.fromAddr with
  | some entry =>
      if tx.tx.value ≤ entry then .ok () else .error "Insufficient balance"
  | none => .error "Insufficient balance"

/-- The two ways `apply_tx` can abort the process: the explicit `panic!()` on
a missing or underfunded sender, and the `uint` crate's panic when the
recipient credit `+=` overflows 256 bits. -/
inductive ApplyErr
  | senderPanic
  | addOverflow
deriving DecidableEq

/-- `*state.entry(a).or_insert(0) += v`: add `v` to `a`'s balance, inserting
the account at balance 0 first when absent; `U256::add` panics when the sum
reaches `2 ^ 256`. -/
def credit (s : Ledger) (a v : Nat) : Except ApplyErr Ledger :=
  match lookup s a with
  | some r => if r + v < 2 ^ 256 then .ok (setBal s a (r + v)) else .error .addOverflow
  | none => if v < 2 ^ 256 then .ok (s ++ [(a, v)]) else .error .addOverflow

/-- `apply_tx` from the source: debit the sender if present and sufficiently
funded (`panic!()` otherwise), then credit the recipient. -/
def apply_tx (s : Ledger) (stx : SignedTx) : Except ApplyErr Ledger :=
  match lookup s stx.tx.fromAddr with
  | some entry =>
      if stx.tx.value ≤ entry then
        credit (setBal s stx.tx.fromAddr (entry - stx.tx.value)) stx.tx.toAddr stx.tx.value
      else .error .senderPanic
  | none => .error .senderPanic

/-- `txs.iter().fold(state, apply_tx)`; `none` when some step panics. -/
def applyAll : Ledger → List SignedTx → Option Ledger
  | s, [] => some s
  | s, stx :: txs =>
      match apply_tx s stx with
      | .ok s' => applyAll s' txs
      | .error _ => none

/-- `Result::is_ok`. -/
def exceptIsOk {ε α : Type} : Except ε α → Bool
  | .ok _ => true
  | .error _ => false

/-- The batch built in `run_node`:
`db.drain(..).filter(|tx| validate_tx(&state, tx).is_ok()).collect()` —
every drained transaction is validated against the one freshly fetched
`state`. -/
def batchTxs (state : Ledger) (db : List SignedTx) : List SignedTx :=
  db.filter (fun tx => exceptIsOk (validate_tx state tx))

/-- One `run_node` cycle after the drain: filter by `validate_tx` against the
fetched state, then fold `apply_tx`; `none` when the fold panics. -/
def batchCycle (state : Ledger) (db : List SignedTx) : Option Ledger :=
  applyAll state (batchTxs state db)

/-- `U256::to_big_endian` into an `n`-byte buffer (and, for `n = 20`, the
byte array `H160::as_fixed_bytes`): big-endian base-256 digits, most
significant first. -/
def beBytes : Nat → Nat → List Nat
  | 0, _ => []
  | n + 1, v => v / 256 ^ n % 256 :: beBytes n v

/-- Big-endian decoding, inverse of `beBytes` on values in range. -/
def ofBeBytes (l : List Nat) : Nat := l.foldl (fun acc d => 256 * acc + d) 0

/-- `hash_tx` from the source, as the keccak-256 image of the message built
from the four fields; `keccak` is the external `ethers::utils::keccak256`,
passed as a parameter. -/
def hash_tx (keccak : List Nat → List Nat) (sig_args : Tx) : List Nat :=
  let value_bytes := beBytes 32 sig_args.value
  let nonce_bytes := beBytes 32 sig_args.nonce
  let msg := List.flatten
    [beBytes 20 sig_args.fromAddr, beBytes 20 sig_args.toAddr, value_bytes, nonce_bytes]
  keccak msg

/-- The first address hardcoded in `compute_root` (and in `run_node`):
`0x318A2475f1ba1A1AC4562D1541512d3649eE1131`. -/
def ADDR0 : Nat := 0x318A2475f1ba1A1AC4562D1541512d3649eE1131

/-- The second address hardcoded in `compute_root` (and in `run_node`):
`0x419978a8729ed2c3b1048b5Bba49f8599eD8F7C1`. -/
def ADDR1 : Nat := 0x419978a8729ed2c3b1048b5Bba49f8599eD8F7C1

/-- The byte string `compute_root` feeds to keccak-256:
`state[&addr0]` and `state[&addr1]` rendered as 32-byte big-endian buffers
and concatenated. Indexing a `HashMap` with `[]` panics when the key is
absent, hence the `Option`. -/
def compute_root_input (state : Ledger) : Option (List Nat) :=
  match lookup state ADDR0, lookup state ADDR1 with
  | some b0, some b1 => some (beBytes 32 b0 ++ beBytes 32 b1)
  | _, _ => none

/-- `compute_root` from the source: keccak-256 of `compute_root_input`. -/
def compute_root (keccak : List Nat → List Nat) (state : Ledger) : Option (List Nat) :=
  (compute_root_input state).map keccak

/-- `sign` from the source: build `hash_tx` of the transaction and sign that
digest with the wallet for the given private key. `ecSign` stands for
`LocalWallet::sign_message` of the `ethers` crate (the EIP-191 prefix it
applies internally is absorbed into the `ecSign`/`ecRecover` pair). -/
def sign (keccak : List Nat → List Nat) (ecSign : Nat → List Nat → Nat)
    (private_key : Nat) (sig_args : Tx) : Nat :=
  ecSign private_key (hash_tx keccak sig_args)

/-- `verify_tx_signature` from the source: recompute `hash_tx`, recover the
signer from the signature over that digest, and succeed exactly when the
recovered address is `tx.from` (that is what `ethers`'s `Signature::verify`
does; a signature string that fails to parse is modelled as one recovering
to a different address). -/
def verify_tx_signature (keccak : List Nat → List Nat)
    (ecRecover : Nat → List Nat → Nat) (signed_tx : SignedTx) : Bool :=
  ecRecover signed_tx.signature (hash_tx keccak signed_tx.tx) == signed_tx.tx.fromAddr

/-- The two error exits of the `submit_transaction` RPC handler: the `?` on
`params.parse()` and the `?` on `verify_tx_signature`. -/
inductive RpcErr
  | malformedParams
  | invalidSignature
deriving DecidableEq

/-- The `submit_transaction` handler registered in `init_rpc`: parse the
payload (the serde outcome is the already-abstracted `payload` argument),
verify the signature, and only then push onto the mempool; each failure
returns the error to the caller and leaves the mempool untouched. Returns
(result reported to the caller, mempool afterwards). -/
def submit_transaction (keccak : List Nat → List Nat)
    (ecRecover : Nat → List Nat → Nat) (payload : Except Unit SignedTx)
    (db : List SignedTx) : Except RpcErr Unit × List SignedTx :=
  match payload with
  | .error _ => (.error .malformedParams, db)
  | .ok tx =>
      if verify_tx_signature keccak ecRecover tx then (.ok (), db ++ [tx])
      else (.error .invalidSignature, db)

/-- A sequence of transactions each of which passes `validate_tx` at its
point of application, i.e. against the ledger as mutated by the earlier
transactions of the sequence. -/
inductive ValidSeq : Ledger → List SignedTx → Prop
  | nil (s : Ledger) : ValidSeq s []
  | cons (s : Ledger) (stx : SignedTx) (txs : List SignedTx)
      (hv : validate_tx s stx = .ok ())
      (hrest : ∀ s', apply_tx s stx = .ok s' → ValidSeq s' txs) :
      ValidSeq s (stx :: txs)

/-- The byte string `hash_tx` feeds to keccak-256, written as a plain
concatenation: fixed-width big-endian `from`, `to`, `value`, `nonce`. -/
def txMsg (tx : Tx) : List Nat :=
  beBytes 20 tx.fromAddr ++ (beBytes 20 tx.toAddr
    ++ (beBytes 32 tx.value ++ beBytes 32 tx.nonce))

/-- The representation invariants of the Rust field types: `from` and `to`
are `H160` (20 bytes), `value` and `nonce` are `U256` (32 bytes). -/
def TxInRange (tx : Tx) : Prop :=
  tx.fromAddr < 256 ^ 20 ∧ tx.toAddr < 256 ^ 20
    ∧ tx.value < 256 ^ 32 ∧ tx.nonce < 256 ^ 32

instance instDecEqExcept {ε α : Type} [DecidableEq ε] [DecidableEq α] :
    DecidableEq (Except ε α)
  | .ok a, .ok b =>
    if h : a = b then .isTrue (by rw [h]) else .isFalse (fun hh => h (Except.ok.inj hh))
  | .ok _, .error _ => .isFalse (fun hh => Except.noConfusion hh)
  | .error _, .ok _ => .isFalse (fun hh => Except.noConfusion hh)
  | .error e, .error f =>
    if h : e = f then .isTrue (by rw [h]) else .isFalse (fun hh => h (Except.error.inj hh))

/-- One admissible concrete implementation of the external keccak interface,
used only to instantiate parametric theorems at concrete inputs. -/
def toyKeccak : List Nat → List Nat := fun m => m

/-- One admissible concrete implementation of the external signing primitive
(`LocalWallet::sign_message`): the signature object is the signing key. -/
def toySign : Nat → List Nat → Nat := fun k _ => k

/-- The matching concrete recovery primitive: recovery returns the key
stored in the signature. Together with `toyAddrOf` this satisfies the
recoverable-signature contract `toyRecover (toySign k m) m = toyAddrOf k`. -/
def toyRecover : Nat → List Nat → Nat := fun sg _ => sg

/-- The address derived from a private key, in the toy instantiation. -/
def toyAddrOf : Nat → Nat := fun k => k

/-! Lemmas about the ledger representation. -/

theorem lookup_eq_none_iff (s : Ledger) (a : Nat) : lookup s a = none ↔ a ∉ keys s := by
  induction s with
  | nil => simp [lookup, keys]
  | cons p s ih =>
    obtain ⟨k, v⟩ := p
    by_cases h : k = a
    · subst h
      simp [lookup, keys]
    · have h' : ¬a = k := fun e => h e.symm
      simp [lookup, keys, h, h', ih]

theorem mem_keys_of_lookup {s : Ledger} {a b : Nat} (h : lookup s a = some b) :
    a ∈ keys s := by
  by_contra hc
  rw [(lookup_eq_none_iff s a).2 hc] at h
  cases h

theorem keys_cons (k w : Nat) (s : Ledger) : keys ((k, w) :: s) = k :: keys s := rfl

theorem setBal_cons (k w : Nat) (s : Ledger) (a v : Nat) :
    setBal ((k, w) :: s) a v = (if k = a then (a, v) else (k, w)) :: setBal s a v := by
  simp [setBal]

theorem lookup_setBal_self {s : Ledger} {a : Nat} (v : Nat) (h : a ∈ keys s) :
    lookup (setBal s a v) a = some v := by
  induction s with
  | nil => simp [keys] at h
  | cons p s ih =>
    obtain ⟨k, w⟩ := p
    rw [setBal_cons]
    by_cases hk : k = a
    · rw [if_pos hk]
      simp [lookup]
    · rw [if_neg hk]
      have h' : a ∈ keys s := by
        rcases (by simpa [keys] using h : a = k ∨ a ∈ keys s) with h1 | h1
        · exact absurd h1.symm hk
        · exact h1
      simpa [lookup, hk] using ih h'

theorem lookup_setBal_ne {s : Ledger} {a c : Nat} (v : Nat) (h : c ≠ a) :
    lookup (setBal s a v) c = lookup s c := by
  induction s with
  | nil => simp [setBal, lookup]
  | cons p s ih =>
    obtain ⟨k, w⟩ := p
    rw [setBal_cons]
    by_cases hk : k = a
    · rw [if_pos hk]
      subst hk
      have h1 : ¬k = c := fun e => h e.symm
      simpa [lookup, h1] using ih
    · rw [if_neg hk]
      by_cases hc : k = c <;> simp [lookup, hc, ih]

theorem keys_setBal (s : Ledger) (a v : Nat) : keys (setBal s a v) = keys s := by
  induction s with
  | nil => rfl
  | cons p s ih =>
    obtain ⟨k, w⟩ := p
    rw [setBal_cons]
    by_cases hk : k = a
    · rw [if_pos hk]
      subst hk
      simpa [keys] using ih
    · rw [if_neg hk]
      simpa [keys] using ih

theorem setBal_of_not_mem {s : Ledger} {a : Nat} (v : Nat) (h : a ∉ keys s) :
    setBal s a v = s := by
  induction s with
  | nil => rfl
  | cons p s ih =>
    obtain ⟨k, w⟩ := p
    have h1 : ¬k = a := by
      intro e
      exact h (by rw [keys_cons, e]; exact List.mem_cons_self a (keys s))
    have h2 : a ∉ keys s := fun e => h (by rw [keys_cons]; exact List.mem_cons_of_mem k e)
    rw [setBal_cons, if_neg h1, ih h2]

theorem lookup_le_sumBal {s : Ledger} {a b : Nat} (h : lookup s a = some b) :
    b ≤ sumBal s := by
  induction s with
  | nil => cases h
  | cons p s ih =>
    obtain ⟨k, w⟩ := p
    by_cases hk : k = a
    · simp [lookup, hk] at h
      simp [sumBal, h]
    · simp [lookup, hk] at h
      have := ih h
      simp [sumBal] at this ⊢
      omega

theorem lookupOr0_le_sumBal (s : Ledger) (a : Nat) : lookupOr0 s a ≤ sumBal s := by
  unfold lookupOr0
  cases h : lookup s a with
  | none => simp
  | some b => simpa using lookup_le_sumBal h

theorem sumBal_setBal {s : Ledger} (hwf : WF s) {a b : Nat} (v : Nat)
    (h : lookup s a = some b) : sumBal (setBal s a v) + b = sumBal s + v := by
  induction s with
  | nil => cases h
  | cons p s ih =>
    obtain ⟨k, w⟩ := p
    have hwf' : WF s := ((List.nodup_cons.1 hwf).2 : (keys s).Nodup)
    have hknot : k ∉ keys s := (List.nodup_cons.1 hwf).1
    by_cases hk : k = a
    · subst hk
      simp [lookup] at h
      rw [setBal_cons, if_pos rfl, setBal_of_not_mem v hknot]
      simp [sumBal]
      omega
    · simp [lookup, hk] at h
      have hih := ih hwf' h
      rw [setBal_cons, if_neg hk]
      simp [sumBal] at hih ⊢
      omega

theorem sumBal_append (s t : Ledger) : sumBal (s ++ t) = sumBal s + sumBal t := by
  simp [sumBal]

theorem keys_append (s t : Ledger) : keys (s ++ t) = keys s ++ keys t := by
  simp [keys]

theorem lookup_append (s t : Ledger) (c : Nat) :
    lookup (s ++ t) c = match lookup s c with
      | some b => some b
      | none => lookup t c := by
  induction s with
  | nil => simp [lookup]
  | cons p s ih =>
    obtain ⟨k, w⟩ := p
    by_cases hk : k = c <;> simp [lookup, hk, ih]

/-! Lemmas about `credit`, `validate_tx` and `apply_tx`. -/

theorem credit_of_lookup_some {s : Ledger} {a v r : Nat} (hl : lookup s a = some r) :
    credit s a v = if r + v < 2 ^ 256 then .ok (setBal s a (r + v))
      else .error .addOverflow := by
  unfold credit
  rw [hl]

theorem credit_of_lookup_none {s : Ledger} {a v : Nat} (hl : lookup s a = none) :
    credit s a v = if v < 2 ^ 256 then .ok (s ++ [(a, v)])
      else .error .addOverflow := by
  unfold credit
  rw [hl]

theorem credit_ok_spec {s : Ledger} {a v : Nat} {s' : Ledger}
    (h : credit s a v = .ok s') :
    lookup s' a = some (lookupOr0 s a + v)
    ∧ (∀ c, c ≠ a → lookup s' c = lookup s c)
    ∧ (WF s → WF s' ∧ sumBal s' = sumBal s + v) := by
  cases hl : lookup s a with
  | some r =>
    rw [credit_of_lookup_some hl] at h
    by_cases hov : r + v < 2 ^ 256
    · rw [if_pos hov] at h
      injection h with h
      subst h
      have hmem : a ∈ keys s := mem_keys_of_lookup hl
      refine ⟨?_, ?_, ?_⟩
      · rw [lookup_setBal_self (r + v) hmem]
        simp [lookupOr0, hl]
      · intro c hc
        exact lookup_setBal_ne (r + v) hc
      · intro hwf
        have hk : WF (setBal s a (r + v)) := by
          unfold WF
          rw [keys_setBal]
          exact hwf
        have hs := sumBal_setBal hwf (r + v) hl
        exact ⟨hk, by omega⟩
    · rw [if_neg hov] at h
      cases h
  | none =>
    rw [credit_of_lookup_none hl] at h
    by_cases hov : v < 2 ^ 256
    · rw [if_pos hov] at h
      injection h with h
      subst h
      have hnot : a ∉ keys s := (lookup_eq_none_iff s a).1 hl
      refine ⟨?_, ?_, ?_⟩
      · rw [lookup_append]
        simp [hl, lookup, lookupOr0]
      · intro c hc
        rw [lookup_append]
        cases hc' : lookup s c with
        | some b => rfl
        | none =>
          have hac : ¬a = c := fun e => hc e.symm
          simp [lookup, hac]
      · intro hwf
        constructor
        · unfold WF
          rw [keys_append]
          have hone : keys [(a, v)] = [a] := rfl
          rw [hone]
          refine List.Nodup.append hwf (List.nodup_singleton a) ?_
          intro x hx hx'
          rw [List.mem_singleton] at hx'
          subst hx'
          exact hnot hx
        · rw [sumBal_append]
          simp [sumBal]
    · rw [if_neg hov] at h
      cases h

theorem credit_succeeds {s : Ledger} {a v : Nat}
    (h : lookupOr0 s a + v < 2 ^ 256) : ∃ s', credit s a v = .ok s' := by
  cases hl : lookup s a with
  | some r =>
    have hr : lookupOr0 s a = r := by simp [lookupOr0, hl]
    rw [hr] at h
    exact ⟨setBal s a (r + v), by rw [credit_of_lookup_some hl, if_pos h]⟩
  | none =>
    have hr : lookupOr0 s a = 0 := by simp [lookupOr0, hl]
    rw [hr] at h
    exact ⟨s ++ [(a, v)], by rw [credit_of_lookup_none hl, if_pos (by omega)]⟩

theorem credit_ne_senderPanic (s : Ledger) (a v : Nat) :
    credit s a v ≠ .error .senderPanic := by
  cases hl : lookup s a with
  | some r =>
    rw [credit_of_lookup_some hl]
    split <;> simp
  | none =>
    rw [credit_of_lookup_none hl]
    split <;> simp

theorem validate_ok_iff (s : Ledger) (stx : SignedTx) :
    validate_tx s stx = .ok ()
      ↔ ∃ b, lookup s stx.tx.fromAddr = some b ∧ stx.tx.value ≤ b := by
  unfold validate_tx
  cases hl : lookup s stx.tx.fromAddr with
  | some entry =>
    by_cases hle : stx.tx.value ≤ entry
    · simp [hle]
    · simp [hle]
  | none => simp

theorem apply_tx_of_lookup_some {s : Ledger} {stx : SignedTx} {bal : Nat}
    (hl : lookup s stx.tx.fromAddr = some bal) :
    apply_tx s stx = if stx.tx.value ≤ bal then
        credit (setBal s stx.tx.fromAddr (bal - stx.tx.value)) stx.tx.toAddr stx.tx.value
      else .error .senderPanic := by
  unfold apply_tx
  rw [hl]

theorem apply_tx_of_lookup_none {s : Ledger} {stx : SignedTx}
    (hl : lookup s stx.tx.fromAddr = none) :
    apply_tx s stx = .error .senderPanic := by
  unfold apply_tx
  rw [hl]

theorem apply_ok_spec {s : Ledger} {stx : SignedTx} {s' : Ledger}
    (h : apply_tx s stx = .ok s') :
    ∃ bal, lookup s stx.tx.fromAddr = some bal ∧ stx.tx.value ≤ bal
      ∧ credit (setBal s stx.tx.fromAddr (bal - stx.tx.value)) stx.tx.toAddr
          stx.tx.value = .ok s' := by
  cases hl : lookup s stx.tx.fromAddr with
  | some bal =>
    rw [apply_tx_of_lookup_some hl] at h
    by_cases hle : stx.tx.value ≤ bal
    · rw [if_pos hle] at h
      exact ⟨bal, rfl, hle, h⟩
    · rw [if_neg hle] at h
      cases h
  | none =>
    rw [apply_tx_of_lookup_none hl] at h
    cases h

theorem apply_ne_senderPanic {s : Ledger} {stx : SignedTx}
    (hv : validate_tx s stx = .ok ()) :
    apply_tx s stx ≠ .error .senderPanic := by
  obtain ⟨bal, hl, hle⟩ := (validate_ok_iff s stx).1 hv
  rw [apply_tx_of_lookup_some hl, if_pos hle]
  exact credit_ne_senderPanic _ _ _

theorem apply_ok_sum {s : Ledger} {stx : SignedTx} {s' : Ledger} (hwf : WF s)
    (h : apply_tx s stx = .ok s') : WF s' ∧ sumBal s' = sumBal s := by
  obtain ⟨bal, hl, hle, hc⟩ := apply_ok_spec h
  have hwf1 : WF (setBal s stx.tx.fromAddr (bal - stx.tx.value)) := by
    unfold WF
    rw [keys_setBal]
    exact hwf
  have hs1 := sumBal_setBal hwf (bal - stx.tx.value) hl
  obtain ⟨-, -, hq⟩ := credit_ok_spec hc
  obtain ⟨hwf', hsum'⟩ := hq hwf1
  exact ⟨hwf', by omega⟩

theorem apply_succeeds {s : Ledger} {stx : SignedTx} (hwf : WF s)
    (hsum : sumBal s < 2 ^ 256) (hv : validate_tx s stx = .ok ()) :
    ∃ s', apply_tx s stx = .ok s' := by
  obtain ⟨bal, hl, hle⟩ := (validate_ok_iff s stx).1 hv
  have hs1 := sumBal_setBal hwf (bal - stx.tx.value) hl
  have hbal : bal ≤ sumBal s := lookup_le_sumBal hl
  have hto := lookupOr0_le_sumBal (setBal s stx.tx.fromAddr (bal - stx.tx.value)) stx.tx.toAddr
  have hov : lookupOr0 (setBal s stx.tx.fromAddr (bal - stx.tx.value)) stx.tx.toAddr
      + stx.tx.value < 2 ^ 256 := by omega
  obtain ⟨s', hc⟩ := credit_succeeds hov
  refine ⟨s', ?_⟩
  rw [apply_tx_of_lookup_some hl, if_pos hle]
  exact hc

/-! Lemmas about the big-endian byte encodings. -/

theorem beBytes_length (n v : Nat) : (beBytes n v).length = n := by
  induction n generalizing v with
  | zero => rfl
  | succ n ih => simp [beBytes, ih]

theorem ofBeBytes_aux (n v a : Nat) :
    (beBytes n v).foldl (fun acc d => 256 * acc + d) a = a * 256 ^ n + v % 256 ^ n := by
  induction n generalizing a with
  | zero => simp [beBytes, Nat.mod_one]
  | succ n ih =>
    rw [beBytes, List.foldl_cons, ih]
    have hm : v % (256 ^ n * 256) = v % 256 ^ n + 256 ^ n * (v / 256 ^ n % 256) :=
      Nat.mod_mul
    have hp : (256 : Nat) ^ (n + 1) = 256 ^ n * 256 := by ring
    rw [hp, hm]
    ring

theorem ofBeBytes_beBytes (n v : Nat) : ofBeBytes (beBytes n v) = v % 256 ^ n := by
  unfold ofBeBytes
  rw [ofBeBytes_aux]
  simp

theorem beBytes_inj {n a b : Nat} (ha : a < 256 ^ n) (hb : b < 256 ^ n)
    (h : beBytes n a = beBytes n b) : a = b := by
  have := congrArg ofBeBytes h
  rw [ofBeBytes_beBytes, ofBeBytes_beBytes, Nat.mod_eq_of_lt ha, Nat.mod_eq_of_lt hb] at this
  exact this

theorem txMsg_inj {tx tx' : Tx} (h1 : TxInRange tx) (h2 : TxInRange tx')
    (h : txMsg tx = txMsg tx') : tx = tx' := by
  obtain ⟨hf1, ht1, hv1, hn1⟩ := h1
  obtain ⟨hf2, ht2, hv2, hn2⟩ := h2
  unfold txMsg at h
  have e1 := List.append_inj h (by rw [beBytes_length, beBytes_length])
  have e2 := List.append_inj e1.2 (by rw [beBytes_length, beBytes_length])
  have e3 := List.append_inj e2.2 (by rw [beBytes_length, beBytes_length])
  obtain ⟨tx1, tx2, tx3, tx4⟩ := tx
  obtain ⟨ty1, ty2, ty3, ty4⟩ := tx'
  simp only at e1 e2 e3 hf1 ht1 hv1 hn1 hf2 ht2 hv2 hn2
  have q1 := beBytes_inj hf1 hf2 e1.1
  have q2 := beBytes_inj ht1 ht2 e2.1
  have q3 := beBytes_inj hv1 hv2 e3.1
  have q4 := beBytes_inj hn1 hn2 e3.2
  simp [q1, q2, q3, q4]

/-! Unfolding helpers for `validate_tx` and `applyAll`. -/

theorem validate_tx_of_lookup_some {s : Ledger} {stx : SignedTx} {entry : Nat}
    (hl : lookup s stx.tx.fromAddr = some entry) :
    validate_tx s stx = if stx.tx.value ≤ entry then .ok ()
      else .error "Insufficient balance" := by
  unfold validate_tx
  rw [hl]

theorem validate_tx_of_lookup_none {s : Ledger} {stx : SignedTx}
    (hl : lookup s stx.tx.fromAddr = none) :
    validate_tx s stx = .error "Insufficient balance" := by
  unfold validate_tx
  rw [hl]

theorem applyAll_cons_ok {s s1 : Ledger} {stx : SignedTx} {txs : List SignedTx}
    (h : apply_tx s stx = .ok s1) :
    applyAll s (stx :: txs) = applyAll s1 txs := by
  conv_lhs => unfold applyAll
  rw [h]

/-! The claims. -/

/-- C6: `validate_tx` succeeds exactly when the sender is present in the
ledger with balance at least the transferred value; in every other case —
including a sender absent from the ledger — it returns the error value
`"Insufficient balance"` (a `Result`, never a crash). -/
theorem claim6_validate_iff_funded (s : Ledger) (stx : SignedTx) :
    (validate_tx s stx = .ok ()
      ↔ ∃ b, lookup s stx.tx.fromAddr = some b ∧ stx.tx.value ≤ b)
    ∧ (validate_tx s stx ≠ .ok ()
      → validate_tx s stx = .error "Insufficient balance") := by
  refine ⟨validate_ok_iff s stx, ?_⟩
  intro hne
  cases hl : lookup s stx.tx.fromAddr with
  | some entry =>
    rw [validate_tx_of_lookup_some hl] at hne ⊢
    by_cases hle : stx.tx.value ≤ entry
    · rw [if_pos hle] at hne
      exact absurd rfl hne
    · rw [if_neg hle]
  | none =>
    exact validate_tx_of_lookup_none hl

/-- Witness for C6: a funded sender is accepted and an unknown sender is
rejected with the `"Insufficient balance"` error. -/
theorem claim6_witness :
    validate_tx [(1, 5)] ⟨⟨1, 2, 0, 3⟩, 0⟩ = .ok ()
    ∧ validate_tx [(1, 5)] ⟨⟨4, 2, 0, 3⟩, 0⟩ = .error "Insufficient balance" := by
  constructor
  · exact (claim6_validate_iff_funded [(1, 5)] ⟨⟨1, 2, 0, 3⟩, 0⟩).1.mpr
      ⟨5, rfl, by decide⟩
  · exact (claim6_validate_iff_funded [(1, 5)] ⟨⟨4, 2, 0, 3⟩, 0⟩).2 (by decide)

/-- C5: if `validate_tx` succeeds on a ledger and transaction then `apply_tx`
on the same ledger and transaction cannot reach its `panic!()` branch (the
sender is present with balance at least the value, so the debit cannot
underflow), and every balance of a resulting ledger is a non-negative
quantity. -/
theorem claim5_validate_then_apply_safe (s : Ledger) (stx : SignedTx)
    (hv : validate_tx s stx = .ok ()) :
    apply_tx s stx ≠ .error .senderPanic
    ∧ (∃ bal, lookup s stx.tx.fromAddr = some bal ∧ stx.tx.value ≤ bal)
    ∧ (∀ s' a b, apply_tx s stx = .ok s' → lookup s' a = some b → 0 ≤ (b : Int)) := by
  refine ⟨apply_ne_senderPanic hv, (validate_ok_iff s stx).1 hv, ?_⟩
  intro s' a b _ _
  omega

/-- Witness for C5 at a concrete funded ledger and transaction. -/
theorem claim5_witness :
    apply_tx [(1, 5)] ⟨⟨1, 2, 0, 3⟩, 0⟩ ≠ .error .senderPanic :=
  (claim5_validate_then_apply_safe [(1, 5)] ⟨⟨1, 2, 0, 3⟩, 0⟩ (by decide)).1

/-- C7 (amended): for a validated transfer with distinct sender and
recipient, provided the recipient credit stays below `2 ^ 256` (otherwise
the `uint` addition panics), `apply_tx` debits the sender by the value,
credits the recipient by the value (treating an absent recipient as balance
0), and leaves every other account unchanged. -/
theorem claim7_apply_moves_value (s : Ledger) (stx : SignedTx)
    (hv : validate_tx s stx = .ok ())
    (hne : stx.tx.fromAddr ≠ stx.tx.toAddr)
    (hof : lookupOr0 s stx.tx.toAddr + stx.tx.value < 2 ^ 256) :
    ∃ s' bal, apply_tx s stx = .ok s'
      ∧ lookup s stx.tx.fromAddr = some bal
      ∧ stx.tx.value ≤ bal
      ∧ lookup s' stx.tx.fromAddr = some (bal - stx.tx.value)
      ∧ lookup s' stx.tx.toAddr = some (lookupOr0 s stx.tx.toAddr + stx.tx.value)
      ∧ ∀ c, c ≠ stx.tx.fromAddr → c ≠ stx.tx.toAddr → lookup s' c = lookup s c := by
  obtain ⟨bal, hl, hle⟩ := (validate_ok_iff s stx).1 hv
  have hkeep : lookup (setBal s stx.tx.fromAddr (bal - stx.tx.value)) stx.tx.toAddr
      = lookup s stx.tx.toAddr := lookup_setBal_ne _ (Ne.symm hne)
  have hor0 : lookupOr0 (setBal s stx.tx.fromAddr (bal - stx.tx.value)) stx.tx.toAddr
      = lookupOr0 s stx.tx.toAddr := by
    unfold lookupOr0
    rw [hkeep]
  obtain ⟨s', hc⟩ := credit_succeeds (a := stx.tx.toAddr) (v := stx.tx.value)
    (by rw [hor0]; exact hof)
  have hspec := credit_ok_spec hc
  refine ⟨s', bal, ?_, hl, hle, ?_, ?_, ?_⟩
  · rw [apply_tx_of_lookup_some hl, if_pos hle]
    exact hc
  · rw [hspec.2.1 _ hne, lookup_setBal_self _ (mem_keys_of_lookup hl)]
  · rw [hspec.1, hor0]
  · intro c hcf hct
    rw [hspec.2.1 c hct, lookup_setBal_ne _ hcf]

/-- Witness for C7: the specification's end-to-end example, ledger
{A: 100, B: 0} and a transfer of 40 from A to B. -/
theorem claim7_witness :
    ∃ s' bal, apply_tx [(10, 100), (11, 0)] ⟨⟨10, 11, 0, 40⟩, 0⟩ = .ok s'
      ∧ lookup [(10, 100), (11, 0)] 10 = some bal
      ∧ 40 ≤ bal
      ∧ lookup s' 10 = some (bal - 40)
      ∧ lookup s' 11 = some (lookupOr0 [(10, 100), (11, 0)] 11 + 40)
      ∧ ∀ c, c ≠ 10 → c ≠ 11 → lookup s' c = lookup [(10, 100), (11, 0)] c :=
  claim7_apply_moves_value [(10, 100), (11, 0)] ⟨⟨10, 11, 0, 40⟩, 0⟩
    (by decide) (by decide) (by decide)

/-- C7 counterexample: a validated transfer with distinct sender and
recipient on which `apply_tx` does not return a ledger at all — the
recipient credit overflows 256 bits and the `uint` addition panics. -/
theorem claim7_counterexample :
    validate_tx [(1, 1), (2, 2 ^ 256 - 1)] ⟨⟨1, 2, 0, 1⟩, 0⟩ = .ok ()
    ∧ (1 : Nat) ≠ 2
    ∧ apply_tx [(1, 1), (2, 2 ^ 256 - 1)] ⟨⟨1, 2, 0, 1⟩, 0⟩ = .error .addOverflow := by
  exact ⟨by decide, by decide, by decide⟩

/-- C4 (amended): for every key-unique ledger whose total balance is below
`2 ^ 256` (so no recipient credit can overflow) and every transaction
sequence that passes `validate_tx` at each point of application, the fold of
`apply_tx` completes and preserves the sum of all balances. -/
theorem claim4_balance_conservation (s : Ledger) (txs : List SignedTx)
    (hwf : WF s) (hsum : sumBal s < 2 ^ 256) (hv : ValidSeq s txs) :
    ∃ s', applyAll s txs = some s' ∧ sumBal s' = sumBal s := by
  revert hwf hsum
  induction hv with
  | nil s => exact fun _ _ => ⟨s, rfl, rfl⟩
  | cons s stx txs hva hrest ih =>
    intro hwf hsum
    obtain ⟨s1, hap⟩ := apply_succeeds hwf hsum hva
    obtain ⟨hwf1, hsum1⟩ := apply_ok_sum hwf hap
    obtain ⟨s2, hall, hs2⟩ := ih s1 hap hwf1 (by rw [hsum1]; exact hsum)
    refine ⟨s2, ?_, by rw [hs2, hsum1]⟩
    rw [applyAll_cons_ok hap]
    exact hall

/-- Witness for C4: two transfers, the second of which is only valid thanks
to the effect of the first, conserve the total balance 100. -/
theorem claim4_witness :
    ∃ s', applyAll [(1, 100), (2, 0)] [⟨⟨1, 2, 0, 40⟩, 0⟩, ⟨⟨2, 1, 1, 10⟩, 0⟩] = some s'
      ∧ sumBal s' = sumBal [(1, 100), (2, 0)] := by
  apply claim4_balance_conservation
  · decide
  · decide
  · refine ValidSeq.cons _ _ _ (by decide) ?_
    intro s1 h1
    have he1 : apply_tx [(1, 100), (2, 0)] ⟨⟨1, 2, 0, 40⟩, 0⟩
        = .ok [(1, 60), (2, 40)] := by decide
    rw [he1] at h1
    injection h1 with h1
    subst h1
    refine ValidSeq.cons _ _ _ (by decide) ?_
    exact fun s2 _ => ValidSeq.nil s2

/-- C4 counterexample: a ledger and a single transfer that passes
`validate_tx` at its point of application, yet the fold of `apply_tx` does
not produce any ledger — the recipient credit overflows 256 bits, so the
process panics instead of conserving the total. -/
theorem claim4_counterexample :
    ValidSeq [(1, 2 ^ 256 - 1), (2, 2 ^ 256 - 1)] [⟨⟨1, 2, 0, 2 ^ 256 - 1⟩, 0⟩]
    ∧ applyAll [(1, 2 ^ 256 - 1), (2, 2 ^ 256 - 1)] [⟨⟨1, 2, 0, 2 ^ 256 - 1⟩, 0⟩]
      = none := by
  constructor
  · refine ValidSeq.cons _ _ _ (by decide) ?_
    intro s' h
    have he : apply_tx [(1, 2 ^ 256 - 1), (2, 2 ^ 256 - 1)] ⟨⟨1, 2, 0, 2 ^ 256 - 1⟩, 0⟩
        = .error .addOverflow := by decide
    rw [he] at h
    cases h
  · decide

/-- C8: the transaction digest is keccak-256 of the concatenation, in this
order, of the fixed-width big-endian encodings of `from`, `to`, `value` and
`nonce`; it depends on nothing but those four fields, and it is exactly the
digest `sign` signs and `verify_tx_signature` checks. -/
theorem claim8_digest (keccak : List Nat → List Nat)
    (ecSign ecRecover : Nat → List Nat → Nat) (k : Nat) (tx : Tx)
    (stx : SignedTx) :
    hash_tx keccak tx = keccak (txMsg tx)
    ∧ txMsg tx = beBytes 20 tx.fromAddr ++ (beBytes 20 tx.toAddr
        ++ (beBytes 32 tx.value ++ beBytes 32 tx.nonce))
    ∧ sign keccak ecSign k tx = ecSign k (hash_tx keccak tx)
    ∧ verify_tx_signature keccak ecRecover stx
        = (ecRecover stx.signature (hash_tx keccak stx.tx) == stx.tx.fromAddr)
    ∧ (∀ tx' : Tx, tx.fromAddr = tx'.fromAddr → tx.toAddr = tx'.toAddr →
        tx.value = tx'.value → tx.nonce = tx'.nonce →
        hash_tx keccak tx = hash_tx keccak tx') := by
  refine ⟨?_, rfl, rfl, rfl, ?_⟩
  · unfold hash_tx txMsg
    simp
  · intro tx' h1 h2 h3 h4
    unfold hash_tx
    rw [h1, h2, h3, h4]

/-- Witness for C8 at a concrete transaction. -/
theorem claim8_witness :
    hash_tx toyKeccak ⟨1, 2, 3, 4⟩ = toyKeccak (txMsg ⟨1, 2, 3, 4⟩) :=
  (claim8_digest toyKeccak toySign toyRecover 0 ⟨1, 2, 3, 4⟩ ⟨⟨1, 2, 3, 4⟩, 0⟩).1

/-- C2 (amended): `compute_root` reads exactly the balances of the two
hardcoded addresses `ADDR0` and `ADDR1` — it is keccak-256 of their 32-byte
big-endian balances concatenated in that fixed order, it panics when either
is absent, and it is a function of those two balances only (any other
account is ignored). -/
theorem claim2_commitment_two_fixed_accounts (keccak : List Nat → List Nat) :
    (∀ s s', lookup s ADDR0 = lookup s' ADDR0 → lookup s ADDR1 = lookup s' ADDR1 →
      compute_root keccak s = compute_root keccak s')
    ∧ (∀ s b0 b1, lookup s ADDR0 = some b0 → lookup s ADDR1 = some b1 →
      compute_root keccak s = some (keccak (beBytes 32 b0 ++ beBytes 32 b1)))
    ∧ (∀ s, lookup s ADDR0 = none ∨ lookup s ADDR1 = none →
      compute_root keccak s = none) := by
  refine ⟨?_, ?_, ?_⟩
  · intro s s' h0 h1
    unfold compute_root compute_root_input
    rw [h0, h1]
  · intro s b0 b1 h0 h1
    unfold compute_root compute_root_input
    rw [h0, h1]
    rfl
  · intro s h
    unfold compute_root compute_root_input
    cases h0 : lookup s ADDR0 with
    | none => rfl
    | some b0 =>
      cases h1 : lookup s ADDR1 with
      | none => rfl
      | some b1 =>
        rcases h with h | h
        · rw [h0] at h
          cases h
        · rw [h1] at h
          cases h

/-- Witness for C2 (amended): two ledgers that agree on the two hardcoded
addresses but hold different extra accounts receive the same commitment. -/
theorem claim2_witness :
    compute_root toyKeccak [(ADDR0, 7), (ADDR1, 8), (3, 1)]
      = compute_root toyKeccak [(ADDR0, 7), (ADDR1, 8), (4, 2)] :=
  (claim2_commitment_two_fixed_accounts toyKeccak).1 _ _ (by decide) (by decide)

/-- C2 counterexample: two ledgers that differ in the balance of an account
other than the two hardcoded ones produce identical commitment input bytes,
refuting the claim that the commitment enumerates every account of the
ledger and that any balance difference changes the enumerated bytes. -/
theorem claim2_counterexample :
    compute_root_input [(ADDR0, 1), (ADDR1, 2), (5, 10)]
      = compute_root_input [(ADDR0, 1), (ADDR1, 2), (5, 11)]
    ∧ lookup [(ADDR0, 1), (ADDR1, 2), (5, 10)] 5
      ≠ lookup [(ADDR0, 1), (ADDR1, 2), (5, 11)] 5 := by
  exact ⟨by decide, by decide⟩

/-- The toy instantiation of the external signing primitives satisfies the
recoverable-signature contract assumed of `ethers`: recovering from a
signature produced by `toySign` yields the address of the signing key. -/
theorem toy_scheme_contract (k : Nat) (m : List Nat) :
    toyRecover (toySign k m) m = toyAddrOf k := rfl

/-- C3 (amended): under the recoverable-signature contract of the external
primitives, signing a transaction and verifying the result succeeds exactly
when the address derived from the private key is the transaction's `from`
field; and within the fixed field widths the digest input bytes determine
all four fields, so mutating any one of `from`, `to`, `value`, `nonce`
changes the bytes fed to keccak-256. -/
theorem claim3_sign_verify (keccak : List Nat → List Nat)
    (ecSign ecRecover : Nat → List Nat → Nat) (addrOf : Nat → Nat)
    (hrec : ∀ k m, ecRecover (ecSign k m) m = addrOf k) :
    (∀ (k : Nat) (tx : Tx),
      verify_tx_signature keccak ecRecover ⟨tx, sign keccak ecSign k tx⟩ = true
        ↔ addrOf k = tx.fromAddr)
    ∧ (∀ tx tx' : Tx, TxInRange tx → TxInRange tx' → tx ≠ tx' →
        txMsg tx ≠ txMsg tx') := by
  constructor
  · intro k tx
    unfold verify_tx_signature sign
    rw [hrec]
    simp
  · intro tx tx' h1 h2 hne he
    exact hne (txMsg_inj h1 h2 he)

/-- Witness for C3 (amended): with the toy primitives, a transaction whose
`from` field is the address of the signing key verifies after signing. -/
theorem claim3_witness :
    verify_tx_signature toyKeccak toyRecover
      ⟨⟨5, 6, 7, 8⟩, sign toyKeccak toySign 5 ⟨5, 6, 7, 8⟩⟩ = true :=
  ((claim3_sign_verify toyKeccak toySign toyRecover toyAddrOf
    (fun _ _ => rfl)).1 5 ⟨5, 6, 7, 8⟩).mpr rfl

/-- C3 counterexample: with the same admissible primitives (which satisfy
the recovery contract, `toy_scheme_contract`), signing a transaction whose
`from` field is not the address of the signing key and then verifying
fails — the round trip does not hold for an arbitrary private key. -/
theorem claim3_counterexample :
    verify_tx_signature toyKeccak toyRecover
      ⟨⟨2, 0, 0, 0⟩, sign toyKeccak toySign 1 ⟨2, 0, 0, 0⟩⟩ = false := by
  decide

/-- C9: the `submit_transaction` handler appends to the mempool exactly
when the payload parses and its signature verifies against the claimed
sender; on either failure it returns the error to the caller and the
mempool is unchanged. -/
theorem claim9_submit_boundary (keccak : List Nat → List Nat)
    (ecRecover : Nat → List Nat → Nat) (payload : Except Unit SignedTx)
    (db : List SignedTx) :
    ((submit_transaction keccak ecRecover payload db).1 = .ok ()
      ↔ ∃ tx, payload = .ok tx ∧ verify_tx_signature keccak ecRecover tx = true)
    ∧ (∀ tx, payload = .ok tx → verify_tx_signature keccak ecRecover tx = true →
        (submit_transaction keccak ecRecover payload db).2 = db ++ [tx])
    ∧ ((submit_transaction keccak ecRecover payload db).1 ≠ .ok ()
      → (submit_transaction keccak ecRecover payload db).2 = db) := by
  cases payload with
  | error u => simp [submit_transaction]
  | ok tx =>
    by_cases hv : verify_tx_signature keccak ecRecover tx
    · simp [submit_transaction, hv]
    · simp [submit_transaction, hv]

/-- Witness for C9: a verifying payload is appended to the mempool. -/
theorem claim9_witness :
    (submit_transaction toyKeccak toyRecover (.ok ⟨⟨7, 8, 0, 5⟩, 7⟩) []).2
      = [] ++ [⟨⟨7, 8, 0, 5⟩, 7⟩] :=
  (claim9_submit_boundary toyKeccak toyRecover (.ok ⟨⟨7, 8, 0, 5⟩, 7⟩) []).2.1
    _ rfl (by decide)

/-- C1: on the specification's own scenario — ledger with account 1 at
balance 100 and two drained transfers (1 → 2, value 60) then (1 → 3,
value 60) — the batch filter keeps BOTH transactions (each is validated
against the starting state only), the fold applies the first, and then
`apply_tx` hits its `panic!()` on the second, aborting the cycle, instead of
dropping the second with InsufficientBalance and continuing. -/
theorem claim1_intra_batch_overdraft_panics :
    batchTxs [(1, 100)] [⟨⟨1, 2, 0, 60⟩, 0⟩, ⟨⟨1, 3, 1, 60⟩, 0⟩]
      = [⟨⟨1, 2, 0, 60⟩, 0⟩, ⟨⟨1, 3, 1, 60⟩, 0⟩]
    ∧ apply_tx [(1, 100)] ⟨⟨1, 2, 0, 60⟩, 0⟩ = .ok [(1, 40), (2, 60)]
    ∧ apply_tx [(1, 40), (2, 60)] ⟨⟨1, 3, 1, 60⟩, 0⟩ = .error .senderPanic
    ∧ batchCycle [(1, 100)] [⟨⟨1, 2, 0, 60⟩, 0⟩, ⟨⟨1, 3, 1, 60⟩, 0⟩] = none := by
  exact ⟨by decide, by decide, by decide, by decide⟩

end TrollupSeq
